import Mathlib

/-!
Verification of the burn-after-reading plugin core (src/index.ts).

The stateful TypeScript code is shallowly embedded as pure functions over an
explicit database value (`DB`, the two tables with their auto-increment
counters) that additionally return a list of platform-visible effects
(`Event`: sleeps, deletion attempts, sends, warning logs, timer armings).
External collaborators are passed in as parameters: `delOk` is the outcome of
`bot.deleteMessage` per (channel, message id); permission checks and the ids
assigned by `sendMessage` are oracle inputs.  Instants are integers counting
milliseconds since the epoch (`Date.getTime`); configured durations are in
seconds as in the schema and multiplied by 1000 exactly where the code does.
(The schema admits fractional seconds; they are modelled as integers, which
is immaterial to every property proved here.)
-/

namespace BurnAfterReading

/-- Plugin configuration: the four schema options, in seconds
(`maxUsers` is a count). -/
structure Config where
  recallDelay : ℤ
  maxDuration : ℤ
  maxUsers : Nat
  batchRecallInterval : ℤ
deriving DecidableEq

/-- Row of the `burn_after_reading_users` table. -/
structure UserRec where
  id : Nat
  userId : String
  guildId : String
  channelId : String
  enabledAt : ℤ
  expiresAt : ℤ
deriving DecidableEq

/-- Row of the `burn_after_reading_messages` table. -/
structure MsgRec where
  id : Nat
  messageId : String
  userId : String
  guildId : String
  channelId : String
  sentAt : ℤ
deriving DecidableEq

/-- The durable store: both tables plus their auto-increment counters. -/
structure DB where
  users : List UserRec
  messages : List MsgRec
  nextUserId : Nat
  nextMsgId : Nat
deriving DecidableEq

/-- Which user-facing text a `send` effect carries. -/
inductive NoticeKind where
  | activation
  | closing
  | expiry
  | completion
deriving DecidableEq

/-- Platform-visible effects emitted by the embedded operations. -/
inductive Event where
  | sleepMs (ms : ℤ)
  | deleteAttempt (channelId messageId : String) (ok : Bool)
  | send (channelId : String) (kind : NoticeKind)
  | logWarn (messageId : String)
  | armTimer (userId guildId channelId : String) (delayMs : ℤ)
deriving DecidableEq

def Event.isDelete : Event → Bool
  | .deleteAttempt _ _ _ => true
  | _ => false

def Event.isSend : Event → Bool
  | .send _ _ => true
  | _ => false

def Event.isArm : Event → Bool
  | .armTimer _ _ _ _ => true
  | _ => false

/-- Milliseconds slept by a single event (0 for non-sleep events). -/
def sleepAmount : Event → ℤ
  | .sleepMs q => q
  | _ => 0

/-- Total milliseconds slept over a trace. -/
def totalSleepMs (evs : List Event) : ℤ :=
  (evs.map sleepAmount).sum

/-- `ctx.database.create` on the users table (auto-increment id). -/
def dbCreateUser (db : DB) (userId guildId channelId : String)
    (enabledAt expiresAt : ℤ) : DB :=
  { db with
    users := db.users ++ [⟨db.nextUserId, userId, guildId, channelId, enabledAt, expiresAt⟩]
    nextUserId := db.nextUserId + 1 }

/-- `ctx.database.create` on the messages table (auto-increment id). -/
def dbCreateMessage (db : DB) (messageId userId guildId channelId : String)
    (sentAt : ℤ) : DB :=
  { db with
    messages := db.messages ++ [⟨db.nextMsgId, messageId, userId, guildId, channelId, sentAt⟩]
    nextMsgId := db.nextMsgId + 1 }

/-- The equality filter `{ userId, guildId }` on the users table. -/
def userMatches (userId guildId : String) (r : UserRec) : Bool :=
  r.userId == userId && r.guildId == guildId

/-- The equality filter `{ userId, guildId }` on the messages table. -/
def msgMatches (userId guildId : String) (m : MsgRec) : Bool :=
  m.userId == userId && m.guildId == guildId

/-- The human-readable group reference built for rejection messages:
`name(id)` when `getGuild` returned a name, otherwise the bare id. -/
def guildInfoStr (guildName : Option String) (guildId : String) : String :=
  match guildName with
  | some n => n ++ "(" ++ guildId ++ ")"
  | none => guildId

/-- `scheduleExpiration`: computes the remaining delay and returns without
effect when it is not positive, otherwise arms the one-shot timer. -/
def scheduleExpiration (userId guildId channelId : String)
    (expiresAt now : ℤ) : List Event :=
  let delay := expiresAt - now
  if delay ≤ 0 then [] else [.armTimer userId guildId channelId delay]

/-- The per-message effects of one iteration of the recall loop: the deletion
attempt, plus the warning log when the platform deletion failed. -/
def attemptEvents (delOk : String → String → Bool) (m : MsgRec) : List Event :=
  if delOk m.channelId m.messageId then
    [.deleteAttempt m.channelId m.messageId true]
  else
    [.deleteAttempt m.channelId m.messageId false, .logWarn m.messageId]

/-- Store effect of one iteration of the recall loop: on a successful
platform deletion, `ctx.database.remove` by the row id; on failure, the store
is untouched. -/
def recallStepDB (delOk : String → String → Bool) (m : MsgRec) (db : DB) : DB :=
  if delOk m.channelId m.messageId then
    { db with messages := db.messages.filter (fun r => !(r.id == m.id)) }
  else db

/-- The inter-message pause of the recall loop, emitted exactly when
`messages.indexOf(msg) < messages.length - 1`. -/
def interSleep (cfg : Config) (all : List MsgRec) (m : MsgRec) : List Event :=
  if all.indexOf m < all.length - 1 then
    [Event.sleepMs (cfg.batchRecallInterval * 1000)]
  else []

/-- The `for (const msg of messages)` loop of `batchRecallMessages`:
attempt each deletion in order, remove the row only on success, log on
failure and continue, pause between consecutive messages. -/
def recallLoop (cfg : Config) (delOk : String → String → Bool)
    (all : List MsgRec) : List MsgRec → DB → DB × List Event
  | [], db => (db, [])
  | m :: rest, db =>
    ((recallLoop cfg delOk all rest (recallStepDB delOk m db)).1,
      attemptEvents delOk m ++ interSleep cfg all m ++
        (recallLoop cfg delOk all rest (recallStepDB delOk m db)).2)

/-- `batchRecallMessages`: load the user's rows; when none, return with no
further action; otherwise sleep `recallDelay`, run the paced loop, and send
the completion notice to the channel argument (not captured). -/
def batchRecallMessages (cfg : Config) (delOk : String → String → Bool)
    (userId guildId channelId : String) (db : DB) : DB × List Event :=
  let messages := db.messages.filter (msgMatches userId guildId)
  if messages.isEmpty then (db, [])
  else
    let r := recallLoop cfg delOk messages messages db
    (r.1, Event.sleepMs (cfg.recallDelay * 1000) :: r.2 ++ [Event.send channelId .completion])

/-- `burnAfterReading`: remove the session row for (userId, guildId) — a
filter-based remove, so absence is not an error — then batch-recall. -/
def burnAfterReading (cfg : Config) (delOk : String → String → Bool)
    (userId guildId channelId : String) (db : DB) : DB × List Event :=
  let db1 := { db with users := db.users.filter (fun r => !(userMatches userId guildId r)) }
  batchRecallMessages cfg delOk userId guildId channelId db1

/-- Body of the armed expiration timer: send the expiry notice, capture its
id when the platform returned one, then burn. -/
def expireCallback (cfg : Config) (delOk : String → String → Bool)
    (userId guildId channelId : String) (noticeIds : List String)
    (now : ℤ) (db : DB) : DB × List Event :=
  let db1 := match noticeIds.head? with
    | some nid => dbCreateMessage db nid userId guildId channelId now
    | none => db
  let r := burnAfterReading cfg delOk userId guildId channelId db1
  (r.1, Event.send channelId .expiry :: r.2)

/-- Command session context: the fields of the Koishi session the actions
read. -/
structure Sess where
  guildId : Option String
  channelId : String
  userId : String
  messageId : String
deriving DecidableEq

/-- Oracle inputs standing for the external collaborators consulted by the
activation command: the two permission checks, the `getGuild` name lookup,
and the ids `session.send` returned for the activation notice. -/
structure ActOracles where
  botIsAdmin : Bool
  userRoleOk : Bool
  guildName : Option String
  noticeIds : List String
deriving DecidableEq

/-- Outcome of the activation command. -/
inductive ActivateResult where
  | rejectedNotInGuild
  | rejectedNoBotPerm
  | rejectedUserRole
  | rejectedAlreadyHere
  | rejectedElsewhere (guildInfo : String)
  | rejectedCapacity
  | activated
deriving DecidableEq

/-- The `阅后即焚.开启` action: guild-context check, bot permission, user
role, global per-user uniqueness (query by userId only), per-group capacity,
then create the session row, capture the command message, arm the expiration
timer, send the activation notice and capture its id. -/
def activate (cfg : Config) (s : Sess) (o : ActOracles) (now : ℤ)
    (db : DB) : DB × ActivateResult × List Event :=
  match s.guildId with
  | none => (db, .rejectedNotInGuild, [])
  | some g =>
    if !o.botIsAdmin then (db, .rejectedNoBotPerm, [])
    else if !o.userRoleOk then (db, .rejectedUserRole, [])
    else
      let userGlobalStatus := db.users.filter (fun r => r.userId == s.userId)
      match userGlobalStatus.head? with
      | some existing =>
        if existing.guildId == g then (db, .rejectedAlreadyHere, [])
        else (db, .rejectedElsewhere (guildInfoStr o.guildName existing.guildId), [])
      | none =>
        let activeUsers := db.users.filter (fun r => r.guildId == g)
        if cfg.maxUsers ≤ activeUsers.length then (db, .rejectedCapacity, [])
        else
          let expiresAt := now + cfg.maxDuration * 1000
          let db1 := dbCreateUser db s.userId g s.channelId now expiresAt
          let db2 := dbCreateMessage db1 s.messageId s.userId g s.channelId now
          let evs1 := scheduleExpiration s.userId g s.channelId expiresAt now
          let db3 := match o.noticeIds.head? with
            | some nid => dbCreateMessage db2 nid s.userId g s.channelId now
            | none => db2
          (db3, .activated, evs1 ++ [Event.send s.channelId .activation])

/-- Outcome of the deactivation command. -/
inductive DeactResult where
  | rejectedNotInGuild
  | rejectedNoSession
  | rejectedElsewhere (guildInfo : String)
  | deactivated
deriving DecidableEq

/-- The `阅后即焚.关闭` action: require a session in the current group
(pointing at the other group when one exists elsewhere), send and capture the
closing notice, then trigger the burn. -/
def deactivate (cfg : Config) (delOk : String → String → Bool) (s : Sess)
    (closeIds : List String) (guildName : Option String) (now : ℤ)
    (db : DB) : DB × DeactResult × List Event :=
  match s.guildId with
  | none => (db, .rejectedNotInGuild, [])
  | some g =>
    let cur := db.users.filter (userMatches s.userId g)
    if cur.isEmpty then
      let other := db.users.filter (fun r => r.userId == s.userId)
      match other.head? with
      | some ex => (db, .rejectedElsewhere (guildInfoStr guildName ex.guildId), [])
      | none => (db, .rejectedNoSession, [])
    else
      let db1 := match closeIds.head? with
        | some nid => dbCreateMessage db nid s.userId g s.channelId now
        | none => db
      let r := burnAfterReading cfg delOk s.userId g s.channelId db1
      (r.1, .deactivated, Event.send s.channelId .closing :: r.2)

/-- The `message` event handler: ignore events without a guild or message id;
capture the message exactly when the sender has an active session in the
guild.  The second component is the reply surfaced to the sender (always
`none`: the handler never replies). -/
def onMessage (guildId messageId : Option String) (userId channelId : String)
    (now : ℤ) (db : DB) : DB × Option String :=
  match guildId, messageId with
  | some g, some mid =>
    if (db.users.filter (userMatches userId g)).isEmpty then (db, none)
    else (dbCreateMessage db mid userId g channelId now, none)
  | _, _ => (db, none)

/-- One iteration of the `ready` handler loop: pick the first available bot
(skip the record when there is none); re-arm the timer when the expiry is
strictly in the future, otherwise burn immediately. -/
def recoveryStep (cfg : Config) (delOk : String → String → Bool)
    (bots : List String) (now : ℤ) (u : UserRec) (db : DB) : DB × List Event :=
  match bots.head? with
  | none => (db, [])
  | some _ =>
    if now < u.expiresAt then
      (db, scheduleExpiration u.userId u.guildId u.channelId u.expiresAt now)
    else
      burnAfterReading cfg delOk u.userId u.guildId u.channelId db

/-- Fold of `recoveryStep` over the snapshot of session rows loaded once at
startup. -/
def processUsers (cfg : Config) (delOk : String → String → Bool)
    (bots : List String) (now : ℤ) : List UserRec → DB → DB × List Event
  | [], db => (db, [])
  | u :: rest, db =>
    let r1 := recoveryStep cfg delOk bots now u db
    let r2 := processUsers cfg delOk bots now rest r1.1
    (r2.1, r1.2 ++ r2.2)

/-- The `ready` handler: load every session row and process each. -/
def recovery (cfg : Config) (delOk : String → String → Bool)
    (bots : List String) (now : ℤ) (db : DB) : DB × List Event :=
  processUsers cfg delOk bots now db.users db

/-- Well-formedness of the message table: rows appear in strictly ascending
id order, as the auto-increment append maintains. -/
def DB.WF (db : DB) : Prop :=
  db.messages.Pairwise (fun a b => a.id < b.id)

/-- Global session uniqueness: no two distinct session rows share a user id. -/
def GlobalUnique (db : DB) : Prop :=
  ∀ a ∈ db.users, ∀ b ∈ db.users, a.userId = b.userId → a = b

/-- The pacing shape of the recall loop trace: per-message attempt effects,
one inter-message sleep between consecutive messages and none after the
last. -/
def pacedEvents (cfg : Config) (delOk : String → String → Bool) :
    List MsgRec → List Event
  | [] => []
  | [m] => attemptEvents delOk m
  | m :: n :: rest =>
    attemptEvents delOk m ++
      Event.sleepMs (cfg.batchRecallInterval * 1000) :: pacedEvents cfg delOk (n :: rest)

/-- The row-retention predicate realised by one pass of the recall loop over
the batch `l`: a row survives unless some batch element with its id was
successfully deleted. -/
def keptBy (delOk : String → String → Bool) (l : List MsgRec) (r : MsgRec) : Bool :=
  !(l.any fun m => m.id == r.id && delOk m.channelId m.messageId)

instance (db : DB) : Decidable db.WF :=
  inferInstanceAs (Decidable (db.messages.Pairwise _))

instance (db : DB) : Decidable (GlobalUnique db) :=
  inferInstanceAs (Decidable (∀ a ∈ db.users, ∀ b ∈ db.users, a.userId = b.userId → a = b))

/-- Scenario for the activate-then-immediately-deactivate property:
default configuration values. -/
def c8Cfg : Config := ⟨5, 3600, 10, 1⟩

/-- Scenario command context: user u1 in group g1, channel c1; the command
message has platform id m0. -/
def c8Sess : Sess := ⟨some "g1", "c1", "u1", "m0"⟩

/-- In the scenario every platform deletion succeeds. -/
def c8DelOk : String → String → Bool := fun _ _ => true

/-- Activation on an empty store; the activation notice gets platform id m1. -/
def c8AfterActivate : DB × ActivateResult × List Event :=
  activate c8Cfg c8Sess ⟨true, true, none, ["m1"]⟩ 0 ⟨[], [], 0, 0⟩

/-- Immediate deactivation; the closing notice gets platform id m2. -/
def c8Deact : DB × DeactResult × List Event :=
  deactivate c8Cfg c8DelOk c8Sess ["m2"] none 0 c8AfterActivate.1

/-- Full effect trace of the scenario. -/
def c8Trace : List Event := c8AfterActivate.2.2 ++ c8Deact.2.2

/-- The deletion attempts of a trace, in order. -/
def deleteEvents (evs : List Event) : List Event :=
  evs.filter Event.isDelete

/-- Configuration fixture with the schema defaults, used by witnesses. -/
def wCfg : Config := ⟨5, 3600, 10, 1⟩

/-- Ledger fixture: five captured messages of user u in group g. -/
def c2DB : DB :=
  ⟨[], [⟨0, "m1", "u", "g", "c", 0⟩, ⟨1, "m2", "u", "g", "c", 1⟩,
    ⟨2, "m3", "u", "g", "c", 2⟩, ⟨3, "m4", "u", "g", "c", 3⟩,
    ⟨4, "m5", "u", "g", "c", 4⟩], 0, 5⟩

/-- Deletion oracle fixture: every deletion succeeds except message m3. -/
def c2DelOk : String → String → Bool := fun _ mid => !(mid == "m3")

/-- Ledger fixture: two captured messages of the same user and group stored
from two different channels. -/
def c10DB : DB :=
  ⟨[], [⟨0, "x1", "u", "g", "cA", 0⟩, ⟨1, "x2", "u", "g", "cB", 1⟩], 0, 2⟩

/-! ## Theorems -/

/-! ### Helper lemmas about the recall loop -/

theorem pairwise_lt_nodup {l : List MsgRec}
    (h : l.Pairwise (fun a b => a.id < b.id)) : l.Nodup := by
  refine h.imp ?_
  intro a b hlt heq
  subst heq
  exact lt_irrefl _ hlt

theorem WF_id_inj {db : DB} (h : db.WF) {a b : MsgRec} (ha : a ∈ db.messages)
    (hb : b ∈ db.messages) (hid : a.id = b.id) : a = b := by
  by_contra hne
  have hsym : Symmetric (fun x y : MsgRec => x.id ≠ y.id) := by
    intro x y hxy
    exact hxy.symm
  have hforall := List.Pairwise.forall hsym (h.imp fun hlt => Nat.ne_of_lt hlt)
  exact hforall ha hb hne hid

theorem indexOf_append_cons (l₁ : List MsgRec) (m : MsgRec) (l₂ : List MsgRec)
    (h : (l₁ ++ m :: l₂).Nodup) : (l₁ ++ m :: l₂).indexOf m = l₁.length := by
  induction l₁ with
  | nil => simp
  | cons b l₁ ih =>
    have hnd := h
    rw [List.cons_append, List.nodup_cons] at hnd
    have hb : (b == m) = false := by
      apply beq_eq_false_iff_ne.mpr
      intro hbm
      subst hbm
      exact hnd.1 (by simp)
    rw [List.cons_append, List.indexOf_cons, hb]
    simp only [cond_false, List.length_cons]
    rw [ih hnd.2]

theorem recallLoop_events (cfg : Config) (delOk : String → String → Bool)
    (l pre : List MsgRec) (db : DB) (h : (pre ++ l).Nodup) :
    (recallLoop cfg delOk (pre ++ l) l db).2 = pacedEvents cfg delOk l := by
  induction l generalizing pre db with
  | nil => rfl
  | cons m rest ih =>
    have hidx : (pre ++ m :: rest).indexOf m = pre.length :=
      indexOf_append_cons pre m rest h
    cases rest with
    | nil =>
      have hcond : ¬ ((pre ++ [m]).indexOf m < (pre ++ [m]).length - 1) := by
        rw [hidx]
        simp
      rw [recallLoop]
      dsimp only
      simp only [interSleep, if_neg hcond]
      rw [recallLoop]
      simp [pacedEvents]
    | cons n rest2 =>
      have hcond : (pre ++ m :: n :: rest2).indexOf m <
          (pre ++ m :: n :: rest2).length - 1 := by
        rw [hidx]
        simp only [List.length_append, List.length_cons]
        omega
      have hre : pre ++ m :: n :: rest2 = (pre ++ [m]) ++ n :: rest2 := by
        simp
      have hih := ih (pre ++ [m]) (recallStepDB delOk m db)
        (by rw [← hre]; exact h)
      rw [recallLoop]
      dsimp only
      simp only [interSleep, if_pos hcond]
      rw [pacedEvents]
      rw [hre, hih]
      simp

theorem recallLoop_fst (cfg : Config) (delOk : String → String → Bool)
    (all : List MsgRec) (l : List MsgRec) (db : DB) :
    (recallLoop cfg delOk all l db).1 =
      { db with messages := db.messages.filter (keptBy delOk l) } := by
  induction l generalizing db with
  | nil =>
    show db = _
    have : db.messages.filter (keptBy delOk []) = db.messages := by
      apply List.filter_eq_self.mpr
      intro r _
      rfl
    rw [this]
  | cons m rest ih =>
    rw [recallLoop]
    dsimp only
    rw [ih]
    cases hok : delOk m.channelId m.messageId with
    | false =>
      simp only [recallStepDB, hok, Bool.false_eq_true, if_false]
      congr 1
      apply List.filter_congr
      intro r _
      simp [keptBy, hok]
    | true =>
      simp only [recallStepDB, hok, if_true]
      simp only [List.filter_filter]
      congr 1
      apply List.filter_congr
      intro r _
      by_cases hr : r.id = m.id
      · simp [keptBy, hok, hr]
      · have e1 : (r.id == m.id) = false := beq_eq_false_iff_ne.mpr hr
        have e2 : (m.id == r.id) = false :=
          beq_eq_false_iff_ne.mpr fun hx => hr hx.symm
        simp [keptBy, hok, e1, e2]

theorem recallLoop_no_arm (cfg : Config) (delOk : String → String → Bool)
    (all : List MsgRec) (l : List MsgRec) (db : DB) :
    ∀ e ∈ (recallLoop cfg delOk all l db).2, e.isArm = false := by
  induction l generalizing db with
  | nil =>
    intro e he
    exact absurd he (List.not_mem_nil e)
  | cons m rest ih =>
    intro e he
    rw [recallLoop] at he
    dsimp only at he
    simp only [List.mem_append] at he
    rcases he with (he | he) | he
    · unfold attemptEvents at he
      cases hok : delOk m.channelId m.messageId with
      | false =>
        rw [hok] at he
        simp only [Bool.false_eq_true, if_false, List.mem_cons, List.not_mem_nil,
          or_false] at he
        rcases he with he | he
        · subst he
          rfl
        · subst he
          rfl
      | true =>
        rw [hok] at he
        simp only [if_true, List.mem_singleton] at he
        subst he
        rfl
    · unfold interSleep at he
      split at he
      · simp only [List.mem_singleton] at he
        subst he
        rfl
      · exact absurd he (List.not_mem_nil e)
    · exact ih _ e he


/-- C9: a call to `scheduleExpiration` whose computed remaining delay is not
positive returns without any effect: it arms no timer, sends no expiry
notice, and triggers no burn; in general the call either does nothing or
only arms the one-shot timer with the remaining delay. -/
theorem scheduleExpiration_nonpositive_noop (uid gid cid : String)
    (expiresAt now : ℤ) :
    (expiresAt - now ≤ 0 → scheduleExpiration uid gid cid expiresAt now = []) ∧
    (scheduleExpiration uid gid cid expiresAt now = [] ∨
      scheduleExpiration uid gid cid expiresAt now =
        [Event.armTimer uid gid cid (expiresAt - now)]) := by
  unfold scheduleExpiration
  constructor
  · intro h
    simp [h]
  · by_cases h : expiresAt - now ≤ 0 <;> simp [h]

/-- Witness for the C9 theorem at an already-expired instant. -/
theorem scheduleExpiration_nonpositive_noop_w :
    (0 : ℤ) - 10 ≤ 0 ∧ scheduleExpiration "u" "g" "c" 0 10 = [] := by
  refine ⟨by norm_num, ?_⟩
  exact (scheduleExpiration_nonpositive_noop "u" "g" "c" 0 10).1 (by norm_num)

/-- C5: burn first removes the session row by filter (succeeding even when no
row exists), and with an empty ledger for the pair it terminates with no
further action — no sleep, no deletion attempt, no completion notice; when
additionally no session row exists, the whole burn is a no-op. -/
theorem burn_empty_ledger_noop (cfg : Config) (delOk : String → String → Bool)
    (uid gid cid : String) (db : DB)
    (hmsg : db.messages.filter (msgMatches uid gid) = []) :
    (burnAfterReading cfg delOk uid gid cid db).1 =
      { db with users := db.users.filter (fun r => !(userMatches uid gid r)) } ∧
    (burnAfterReading cfg delOk uid gid cid db).2 = [] ∧
    (db.users.filter (userMatches uid gid) = [] →
      (burnAfterReading cfg delOk uid gid cid db).1 = db) := by
  have h1 : (burnAfterReading cfg delOk uid gid cid db).1 =
      { db with users := db.users.filter (fun r => !(userMatches uid gid r)) } := by
    unfold burnAfterReading batchRecallMessages
    simp [hmsg]
  refine ⟨h1, ?_, ?_⟩
  · unfold burnAfterReading batchRecallMessages
    simp [hmsg]
  · intro huser
    rw [h1]
    have : db.users.filter (fun r => !(userMatches uid gid r)) = db.users := by
      apply List.filter_eq_self.mpr
      intro r hr
      have := List.filter_eq_nil_iff.mp huser r hr
      simp [this]
    rw [this]

/-- Witness for the C5 theorem: a store with one unrelated session and one
unrelated message; burning a pair with no rows changes nothing. -/
theorem burn_empty_ledger_noop_w :
    ((⟨[⟨0, "u2", "g2", "c2", 0, 9⟩], [⟨0, "x", "u2", "g2", "c2", 0⟩], 1, 1⟩ :
        DB).messages.filter (msgMatches "u" "g") = []) ∧
    ((⟨[⟨0, "u2", "g2", "c2", 0, 9⟩], [⟨0, "x", "u2", "g2", "c2", 0⟩], 1, 1⟩ :
        DB).users.filter (userMatches "u" "g") = []) ∧
    (burnAfterReading ⟨5, 3600, 10, 1⟩ (fun _ _ => true) "u" "g" "c"
        ⟨[⟨0, "u2", "g2", "c2", 0, 9⟩], [⟨0, "x", "u2", "g2", "c2", 0⟩], 1, 1⟩).1 =
      ⟨[⟨0, "u2", "g2", "c2", 0, 9⟩], [⟨0, "x", "u2", "g2", "c2", 0⟩], 1, 1⟩ := by
  refine ⟨by decide, by decide, ?_⟩
  exact (burn_empty_ledger_noop ⟨5, 3600, 10, 1⟩ (fun _ _ => true) "u" "g" "c"
    ⟨[⟨0, "u2", "g2", "c2", 0, 9⟩], [⟨0, "x", "u2", "g2", "c2", 0⟩], 1, 1⟩
    (by decide)).2.2 (by decide)

/-- C7: an inbound message event with a guild and a message id is captured —
appended to the ledger with the auto-increment id — exactly when the sender
holds an active session in that guild; the handler never replies to the
sender, and events without a guild or message id leave the store unchanged. -/
theorem onMessage_capture_iff (g mid uid cid : String) (now : ℤ) (db : DB) :
    ((∃ rec ∈ db.users, rec.userId = uid ∧ rec.guildId = g) →
      (onMessage (some g) (some mid) uid cid now db).1.messages =
        db.messages ++ [⟨db.nextMsgId, mid, uid, g, cid, now⟩]) ∧
    ((¬ ∃ rec ∈ db.users, rec.userId = uid ∧ rec.guildId = g) →
      (onMessage (some g) (some mid) uid cid now db).1 = db) ∧
    (∀ go mo, (onMessage go mo uid cid now db).2 = none) ∧
    (∀ mo, (onMessage none mo uid cid now db).1 = db) ∧
    (onMessage (some g) none uid cid now db).1 = db := by
  refine ⟨?_, ?_, ?_, ?_, ?_⟩
  · intro ⟨rec, hrec, h1, h2⟩
    have hmem : rec ∈ db.users.filter (userMatches uid g) := by
      apply List.mem_filter.mpr
      exact ⟨hrec, by simp [userMatches, h1, h2]⟩
    have hne : db.users.filter (userMatches uid g) ≠ [] := List.ne_nil_of_mem hmem
    unfold onMessage
    simp only [List.isEmpty_iff, if_neg hne]
    rfl
  · intro h
    have hnil : db.users.filter (userMatches uid g) = [] := by
      apply List.filter_eq_nil_iff.mpr
      intro r hr
      intro hmatch
      exact h ⟨r, hr, by simpa [userMatches] using hmatch⟩
    unfold onMessage
    simp [hnil]
  · intro go mo
    cases go with
    | none => cases mo <;> rfl
    | some g2 =>
      cases mo with
      | none => rfl
      | some m2 =>
        cases hc : (db.users.filter (userMatches uid g2)).isEmpty
        · simp [onMessage, hc]
        · simp [onMessage, hc]
  · intro mo
    rfl
  · rfl

/-- Witness for the C7 theorem: one active session for (u1, g1), a message
from u1 in g1 is captured; a message from u9 is not. -/
theorem onMessage_capture_iff_w :
    (∃ rec ∈ (⟨[⟨0, "u1", "g1", "c1", 0, 9⟩], [], 1, 0⟩ : DB).users,
        rec.userId = "u1" ∧ rec.guildId = "g1") ∧
    (onMessage (some "g1") (some "mA") "u1" "c1" 3
        ⟨[⟨0, "u1", "g1", "c1", 0, 9⟩], [], 1, 0⟩).1.messages =
      [⟨0, "mA", "u1", "g1", "c1", 3⟩] ∧
    (¬ ∃ rec ∈ (⟨[⟨0, "u1", "g1", "c1", 0, 9⟩], [], 1, 0⟩ : DB).users,
        rec.userId = "u9" ∧ rec.guildId = "g1") ∧
    (onMessage (some "g1") (some "mB") "u9" "c1" 3
        ⟨[⟨0, "u1", "g1", "c1", 0, 9⟩], [], 1, 0⟩).1 =
      ⟨[⟨0, "u1", "g1", "c1", 0, 9⟩], [], 1, 0⟩ := by
  refine ⟨by decide, ?_, by decide, ?_⟩
  · have := (onMessage_capture_iff "g1" "mA" "u1" "c1" 3
      ⟨[⟨0, "u1", "g1", "c1", 0, 9⟩], [], 1, 0⟩).1 (by decide)
    simpa using this
  · exact (onMessage_capture_iff "g1" "mB" "u9" "c1" 3
      ⟨[⟨0, "u1", "g1", "c1", 0, 9⟩], [], 1, 0⟩).2.1 (by decide)

/-- C8 counterexample: in the activate-then-immediately-deactivate scenario
with zero intervening user messages, both commands succeed yet three deletion
attempts occur (command message m0, activation notice m1, closing notice m2),
so the burn does not perform "no deletions". -/
theorem c8_deletionsOccur :
    c8AfterActivate.2.1 = ActivateResult.activated ∧
    c8Deact.2.1 = DeactResult.deactivated ∧
    c8Trace.filter Event.isDelete ≠ [] ∧
    (c8Trace.filter Event.isDelete).length = 3 := by
  refine ⟨by decide, by decide, by decide, by decide⟩

/-- C8 amended: the scenario sends exactly three messages — activation
notice, closing notice, completion notice, in that order; the deletion
attempts are exactly the command message and the two notices, all succeed;
the completion notice is never captured and no deletion targets it; the
store ends empty. -/
theorem c8_amended :
    c8Trace.filter Event.isSend =
      [Event.send "c1" NoticeKind.activation, Event.send "c1" NoticeKind.closing,
        Event.send "c1" NoticeKind.completion] ∧
    c8Trace.filter Event.isDelete =
      [Event.deleteAttempt "c1" "m0" true, Event.deleteAttempt "c1" "m1" true,
        Event.deleteAttempt "c1" "m2" true] ∧
    c8Deact.1.messages = [] ∧
    c8Deact.1.users = [] := by
  refine ⟨by decide, by decide, by decide, by decide⟩

/-! ### Batch recall characterisation -/

theorem batchRecall_fst (cfg : Config) (delOk : String → String → Bool)
    (uid gid cid : String) (db : DB) (hwf : db.WF) :
    (batchRecallMessages cfg delOk uid gid cid db).1 =
      { db with messages := db.messages.filter (fun r => !(msgMatches uid gid r && delOk r.channelId r.messageId)) } := by
  have hpt : ∀ r ∈ db.messages,
      keptBy delOk (db.messages.filter (msgMatches uid gid)) r =
        !(msgMatches uid gid r && delOk r.channelId r.messageId) := by
    intro r hr
    unfold keptBy
    congr 1
    cases hval : (msgMatches uid gid r && delOk r.channelId r.messageId) with
    | true =>
      rw [Bool.and_eq_true] at hval
      obtain ⟨hm, hok⟩ := hval
      apply List.any_eq_true.mpr
      exact ⟨r, List.mem_filter.mpr ⟨hr, hm⟩, by simp [hok]⟩
    | false =>
      apply List.any_eq_false.mpr
      intro x hx hcontra
      obtain ⟨hx1, hx2⟩ := List.mem_filter.mp hx
      rw [Bool.and_eq_true] at hcontra
      obtain ⟨hid, hok⟩ := hcontra
      have hxr : x = r := WF_id_inj hwf hx1 hr (by simpa using hid)
      subst hxr
      rw [hx2, hok] at hval
      simp at hval
  unfold batchRecallMessages
  by_cases hemp : (db.messages.filter (msgMatches uid gid)).isEmpty = true
  · rw [if_pos hemp]
    have hnil := List.isEmpty_iff.mp hemp
    have hall : db.messages.filter
        (fun r => !(msgMatches uid gid r && delOk r.channelId r.messageId)) =
        db.messages := by
      apply List.filter_eq_self.mpr
      intro r hr
      have hm : ¬ msgMatches uid gid r = true :=
        List.filter_eq_nil_iff.mp hnil r hr
      have hm2 : msgMatches uid gid r = false := Bool.eq_false_iff.mpr hm
      simp [hm2]
    rw [hall]
  · rw [if_neg hemp]
    dsimp only
    rw [recallLoop_fst]
    congr 1
    exact List.filter_congr hpt

theorem recallLoop_events_self (cfg : Config) (delOk : String → String → Bool)
    (l : List MsgRec) (db : DB) (h : l.Nodup) :
    (recallLoop cfg delOk l l db).2 = pacedEvents cfg delOk l :=
  recallLoop_events cfg delOk l [] db (by simpa using h)

theorem batchRecall_events (cfg : Config) (delOk : String → String → Bool)
    (uid gid cid : String) (db : DB) (hwf : db.WF)
    (hne : db.messages.filter (msgMatches uid gid) ≠ []) :
    (batchRecallMessages cfg delOk uid gid cid db).2 =
      Event.sleepMs (cfg.recallDelay * 1000) ::
        pacedEvents cfg delOk (db.messages.filter (msgMatches uid gid)) ++
        [Event.send cid .completion] := by
  unfold batchRecallMessages
  rw [if_neg (by simpa [List.isEmpty_iff] using hne)]
  dsimp only
  have hnd : (db.messages.filter (msgMatches uid gid)).Nodup :=
    pairwise_lt_nodup (hwf.filter _)
  rw [recallLoop_events_self cfg delOk (db.messages.filter (msgMatches uid gid))
    db hnd]

theorem batchRecall_events_nil (cfg : Config) (delOk : String → String → Bool)
    (uid gid cid : String) (db : DB)
    (hnil : db.messages.filter (msgMatches uid gid) = []) :
    (batchRecallMessages cfg delOk uid gid cid db).2 = [] := by
  unfold batchRecallMessages
  rw [if_pos (List.isEmpty_iff.mpr hnil)]

theorem mem_attempt_delete (delOk : String → String → Bool) (m : MsgRec) :
    Event.deleteAttempt m.channelId m.messageId (delOk m.channelId m.messageId) ∈
      attemptEvents delOk m := by
  unfold attemptEvents
  cases h : delOk m.channelId m.messageId with
  | false => simp
  | true => simp

theorem mem_attempt_log (delOk : String → String → Bool) (m : MsgRec)
    (hf : delOk m.channelId m.messageId = false) :
    Event.logWarn m.messageId ∈ attemptEvents delOk m := by
  unfold attemptEvents
  rw [hf]
  simp

theorem attempt_inversion (delOk : String → String → Bool) (m : MsgRec) :
    ∀ e ∈ attemptEvents delOk m,
      e = Event.deleteAttempt m.channelId m.messageId (delOk m.channelId m.messageId) ∨
        e = Event.logWarn m.messageId := by
  unfold attemptEvents
  cases h : delOk m.channelId m.messageId with
  | false =>
    intro e he
    simp at he
    rcases he with he | he
    · left
      exact he
    · right
      exact he
  | true =>
    intro e he
    simp at he
    left
    exact he

theorem attempt_sublist_paced (cfg : Config) (delOk : String → String → Bool)
    (l : List MsgRec) {m : MsgRec} (hm : m ∈ l) :
    ∀ e ∈ attemptEvents delOk m, e ∈ pacedEvents cfg delOk l := by
  induction l with
  | nil => cases hm
  | cons a rest ih =>
    intro e he
    cases rest with
    | nil =>
      have : m = a := by simpa using hm
      subst this
      exact he
    | cons b rest2 =>
      rw [pacedEvents]
      rcases List.mem_cons.mp hm with h1 | h2
      · subst h1
        exact List.mem_append.mpr (Or.inl he)
      · apply List.mem_append.mpr
        right
        exact List.mem_cons.mpr (Or.inr (ih h2 e he))

theorem paced_inversion (cfg : Config) (delOk : String → String → Bool)
    (l : List MsgRec) :
    ∀ e ∈ pacedEvents cfg delOk l,
      (∃ m ∈ l, e ∈ attemptEvents delOk m) ∨
        e = Event.sleepMs (cfg.batchRecallInterval * 1000) := by
  induction l with
  | nil =>
    intro e he
    exact absurd he (List.not_mem_nil e)
  | cons a rest ih =>
    intro e he
    cases rest with
    | nil =>
      left
      exact ⟨a, by simp, he⟩
    | cons b rest2 =>
      rw [pacedEvents] at he
      rcases List.mem_append.mp he with h1 | h2
      · left
        exact ⟨a, by simp, h1⟩
      · rcases List.mem_cons.mp h2 with h3 | h4
        · right
          exact h3
        · rcases ih e h4 with ⟨m, hm, hme⟩ | hs
          · left
            exact ⟨m, by simp [hm], hme⟩
          · right
            exact hs

theorem deleteEvents_append (a b : List Event) :
    deleteEvents (a ++ b) = deleteEvents a ++ deleteEvents b := by
  simp [deleteEvents]

theorem deleteEvents_attempt (delOk : String → String → Bool) (m : MsgRec) :
    deleteEvents (attemptEvents delOk m) =
      [Event.deleteAttempt m.channelId m.messageId (delOk m.channelId m.messageId)] := by
  unfold attemptEvents deleteEvents
  cases h : delOk m.channelId m.messageId with
  | false => simp [Event.isDelete]
  | true => simp [Event.isDelete]

theorem deleteEvents_paced (cfg : Config) (delOk : String → String → Bool)
    (l : List MsgRec) :
    deleteEvents (pacedEvents cfg delOk l) =
      l.map (fun m => Event.deleteAttempt m.channelId m.messageId
        (delOk m.channelId m.messageId)) := by
  induction l with
  | nil => rfl
  | cons a rest ih =>
    cases rest with
    | nil => simp [pacedEvents, deleteEvents_attempt]
    | cons b rest2 =>
      rw [pacedEvents, deleteEvents_append, deleteEvents_attempt]
      have hsleep : deleteEvents (Event.sleepMs (cfg.batchRecallInterval * 1000) ::
          pacedEvents cfg delOk (b :: rest2)) =
          deleteEvents (pacedEvents cfg delOk (b :: rest2)) := by
        simp [deleteEvents, Event.isDelete]
      rw [hsleep, ih]
      simp

theorem totalSleep_append (a b : List Event) :
    totalSleepMs (a ++ b) = totalSleepMs a + totalSleepMs b := by
  simp [totalSleepMs]

theorem totalSleep_attempt (delOk : String → String → Bool) (m : MsgRec) :
    totalSleepMs (attemptEvents delOk m) = 0 := by
  unfold attemptEvents
  cases h : delOk m.channelId m.messageId with
  | false => simp [totalSleepMs, sleepAmount]
  | true => simp [totalSleepMs, sleepAmount]

theorem totalSleep_paced (cfg : Config) (delOk : String → String → Bool)
    (l : List MsgRec) (h : l ≠ []) :
    totalSleepMs (pacedEvents cfg delOk l) =
      ((l.length - 1 : ℕ) : ℤ) * (cfg.batchRecallInterval * 1000) := by
  induction l with
  | nil => exact absurd rfl h
  | cons m rest ih =>
    cases rest with
    | nil =>
      simp [pacedEvents, totalSleep_attempt]
    | cons n rest2 =>
      rw [pacedEvents, totalSleep_append, totalSleep_attempt]
      have hcons : totalSleepMs (Event.sleepMs (cfg.batchRecallInterval * 1000) ::
          pacedEvents cfg delOk (n :: rest2)) =
          cfg.batchRecallInterval * 1000 +
            totalSleepMs (pacedEvents cfg delOk (n :: rest2)) := by
        simp [totalSleepMs, sleepAmount]
      rw [hcons, ih (by simp)]
      simp only [List.length_cons, Nat.add_sub_cancel]
      push_cast
      ring

/-- C2: per-message failure isolation — a ledger row is removed by the batch
recall exactly when it belongs to the batch and its platform deletion
succeeded; every batch message gets its own deletion attempt, and each
failure is logged, so one failing message never aborts the rest. -/
theorem batchRecall_failure_isolation (cfg : Config)
    (delOk : String → String → Bool) (uid gid cid : String) (db : DB)
    (hwf : db.WF) :
    (batchRecallMessages cfg delOk uid gid cid db).1.messages =
      db.messages.filter
        (fun r => !(msgMatches uid gid r && delOk r.channelId r.messageId)) ∧
    (∀ m ∈ db.messages.filter (msgMatches uid gid),
      Event.deleteAttempt m.channelId m.messageId (delOk m.channelId m.messageId) ∈
        (batchRecallMessages cfg delOk uid gid cid db).2) ∧
    (∀ m ∈ db.messages.filter (msgMatches uid gid),
      delOk m.channelId m.messageId = false →
        Event.logWarn m.messageId ∈ (batchRecallMessages cfg delOk uid gid cid db).2) := by
  refine ⟨?_, ?_, ?_⟩
  · rw [batchRecall_fst cfg delOk uid gid cid db hwf]
  · intro m hm
    have hne : db.messages.filter (msgMatches uid gid) ≠ [] :=
      List.ne_nil_of_mem hm
    rw [batchRecall_events cfg delOk uid gid cid db hwf hne]
    apply List.mem_cons.mpr
    right
    apply List.mem_append.mpr
    left
    exact attempt_sublist_paced cfg delOk _ hm _ (mem_attempt_delete delOk m)
  · intro m hm hf
    have hne : db.messages.filter (msgMatches uid gid) ≠ [] :=
      List.ne_nil_of_mem hm
    rw [batchRecall_events cfg delOk uid gid cid db hwf hne]
    apply List.mem_cons.mpr
    right
    apply List.mem_append.mpr
    left
    exact attempt_sublist_paced cfg delOk _ hm _ (mem_attempt_log delOk m hf)

/-- Witness for the C2 theorem: five captured messages with the deletion of
m3 failing; m1, m2, m4, m5 are removed from the ledger while the row of m3
alone remains. -/
theorem batchRecall_failure_isolation_w :
    DB.WF c2DB ∧
    (batchRecallMessages wCfg c2DelOk "u" "g" "c" c2DB).1.messages =
      c2DB.messages.filter
        (fun r => !(msgMatches "u" "g" r && c2DelOk r.channelId r.messageId)) ∧
    (batchRecallMessages wCfg c2DelOk "u" "g" "c" c2DB).1.messages =
      [⟨2, "m3", "u", "g", "c", 2⟩] := by
  refine ⟨by decide, ?_, by decide⟩
  exact (batchRecall_failure_isolation wCfg c2DelOk "u" "g" "c" c2DB (by decide)).1

/-- C3: pacing and ordering of a burn over a non-empty batch — the trace is
exactly one `recallDelay` sleep, then the per-message attempts separated by
single `batchRecallInterval` sleeps (none after the last), then the
completion notice; attempts follow ascending row id (capture) order, and the
total time slept is recallDelay + (n-1)·batchRecallInterval, in
milliseconds. -/
theorem batchRecall_pacing (cfg : Config) (delOk : String → String → Bool)
    (uid gid cid : String) (db : DB) (hwf : db.WF)
    (hne : db.messages.filter (msgMatches uid gid) ≠ []) :
    (batchRecallMessages cfg delOk uid gid cid db).2 =
      Event.sleepMs (cfg.recallDelay * 1000) ::
        pacedEvents cfg delOk (db.messages.filter (msgMatches uid gid)) ++
        [Event.send cid NoticeKind.completion] ∧
    deleteEvents (batchRecallMessages cfg delOk uid gid cid db).2 =
      (db.messages.filter (msgMatches uid gid)).map
        (fun m => Event.deleteAttempt m.channelId m.messageId
          (delOk m.channelId m.messageId)) ∧
    ((db.messages.filter (msgMatches uid gid)).map (fun m => m.id)).Pairwise (· < ·) ∧
    totalSleepMs (batchRecallMessages cfg delOk uid gid cid db).2 =
      cfg.recallDelay * 1000 +
        (((db.messages.filter (msgMatches uid gid)).length - 1 : ℕ) : ℤ) *
          (cfg.batchRecallInterval * 1000) := by
  have hev := batchRecall_events cfg delOk uid gid cid db hwf hne
  refine ⟨hev, ?_, ?_, ?_⟩
  · rw [hev]
    have h1 : deleteEvents (Event.sleepMs (cfg.recallDelay * 1000) ::
        pacedEvents cfg delOk (db.messages.filter (msgMatches uid gid)) ++
        [Event.send cid NoticeKind.completion]) =
        deleteEvents (pacedEvents cfg delOk
          (db.messages.filter (msgMatches uid gid))) := by
      simp [deleteEvents, Event.isDelete]
    rw [h1, deleteEvents_paced]
  · exact List.pairwise_map.mpr (hwf.filter _)
  · rw [hev]
    have h2 : totalSleepMs (Event.sleepMs (cfg.recallDelay * 1000) ::
        pacedEvents cfg delOk (db.messages.filter (msgMatches uid gid)) ++
        [Event.send cid NoticeKind.completion]) =
        cfg.recallDelay * 1000 +
          totalSleepMs (pacedEvents cfg delOk
            (db.messages.filter (msgMatches uid gid))) := by
      simp [totalSleepMs, sleepAmount]
    rw [h2, totalSleep_paced cfg delOk _ hne]

/-- Witness for the C3 theorem: five captured messages, all deletions
succeeding; the total time slept is 5·1000 + 4·(1·1000) = 9000 ms. -/
theorem batchRecall_pacing_w :
    DB.WF c2DB ∧
    c2DB.messages.filter (msgMatches "u" "g") ≠ [] ∧
    totalSleepMs (batchRecallMessages wCfg (fun _ _ => true) "u" "g" "c" c2DB).2 =
      wCfg.recallDelay * 1000 +
        (((c2DB.messages.filter (msgMatches "u" "g")).length - 1 : ℕ) : ℤ) *
          (wCfg.batchRecallInterval * 1000) ∧
    totalSleepMs (batchRecallMessages wCfg (fun _ _ => true) "u" "g" "c" c2DB).2 =
      9000 := by
  refine ⟨by decide, by decide, ?_, by decide⟩
  exact (batchRecall_pacing wCfg (fun _ _ => true) "u" "g" "c" c2DB (by decide)
    (by decide)).2.2.2

/-- C10: every deletion of a burn targets the channel stored in the
corresponding ledger row at capture time, while the burn's channel argument
is used only for the final completion notice. -/
theorem burn_uses_stored_channels (cfg : Config) (delOk : String → String → Bool)
    (uid gid cid : String) (db : DB) (hwf : db.WF) :
    (∀ ch mid ok, Event.deleteAttempt ch mid ok ∈
        (burnAfterReading cfg delOk uid gid cid db).2 →
      ∃ m ∈ db.messages, msgMatches uid gid m = true ∧ ch = m.channelId ∧
        mid = m.messageId ∧ ok = delOk m.channelId m.messageId) ∧
    (∀ ch k, Event.send ch k ∈ (burnAfterReading cfg delOk uid gid cid db).2 →
      ch = cid ∧ k = NoticeKind.completion) := by
  unfold burnAfterReading
  have hwf1 : ({ db with users := db.users.filter (fun r => !(userMatches uid gid r)) } : DB).WF := hwf
  by_cases hnil : db.messages.filter (msgMatches uid gid) = []
  · have hz := batchRecall_events_nil cfg delOk uid gid cid
      { db with users := db.users.filter (fun r => !(userMatches uid gid r)) } hnil
    rw [hz]
    constructor
    · intro ch mid ok hmem
      exact absurd hmem (List.not_mem_nil _)
    · intro ch k hmem
      exact absurd hmem (List.not_mem_nil _)
  · have hev := batchRecall_events cfg delOk uid gid cid
      { db with users := db.users.filter (fun r => !(userMatches uid gid r)) } hwf1 hnil
    constructor
    · intro ch mid ok hmem
      rw [hev] at hmem
      rcases List.mem_cons.mp hmem with hc | hc
      · cases hc
      rcases List.mem_append.mp hc with hp | hs
      · rcases paced_inversion cfg delOk _ _ hp with ⟨m, hm, hme⟩ | hsleep
        · rcases attempt_inversion delOk m _ hme with he | he
          · obtain ⟨hm1, hm2⟩ := List.mem_filter.mp hm
            injection he with e1 e2 e3
            exact ⟨m, hm1, hm2, e1, e2, e3⟩
          · cases he
        · cases hsleep
      · simp at hs
    · intro ch k hmem
      rw [hev] at hmem
      rcases List.mem_cons.mp hmem with hc | hc
      · cases hc
      rcases List.mem_append.mp hc with hp | hs
      · rcases paced_inversion cfg delOk _ _ hp with ⟨m, hm, hme⟩ | hsleep
        · rcases attempt_inversion delOk m _ hme with he | he
          · cases he
          · cases he
        · cases hsleep
      · have : Event.send ch k = Event.send cid NoticeKind.completion := by
          simpa using hs
        injection this with e1 e2
        exact ⟨e1, e2⟩

/-- Witness for the C10 theorem: two messages captured from channels cA and
cB; each deletion goes to its stored channel, the completion notice to the
burn's channel argument cMain. -/
theorem burn_uses_stored_channels_w :
    DB.WF c10DB ∧
    deleteEvents (burnAfterReading wCfg (fun _ _ => true) "u" "g" "cMain" c10DB).2 =
      [Event.deleteAttempt "cA" "x1" true, Event.deleteAttempt "cB" "x2" true] ∧
    (∀ ch k, Event.send ch k ∈
        (burnAfterReading wCfg (fun _ _ => true) "u" "g" "cMain" c10DB).2 →
      ch = "cMain" ∧ k = NoticeKind.completion) := by
  refine ⟨by decide, by decide, ?_⟩
  exact (burn_uses_stored_channels wCfg (fun _ _ => true) "u" "g" "cMain" c10DB
    (by decide)).2

/-! ### Activation case analysis -/

theorem recallLoop_users (cfg : Config) (delOk : String → String → Bool)
    (all : List MsgRec) (l : List MsgRec) (db : DB) :
    (recallLoop cfg delOk all l db).1.users = db.users := by
  induction l generalizing db with
  | nil => rfl
  | cons m rest ih =>
    rw [recallLoop]
    dsimp only
    rw [ih]
    unfold recallStepDB
    split
    · rfl
    · rfl

theorem batchRecall_users (cfg : Config) (delOk : String → String → Bool)
    (uid gid cid : String) (db : DB) :
    (batchRecallMessages cfg delOk uid gid cid db).1.users = db.users := by
  unfold batchRecallMessages
  by_cases hemp : (db.messages.filter (msgMatches uid gid)).isEmpty = true
  · rw [if_pos hemp]
  · rw [if_neg hemp]
    dsimp only
    rw [recallLoop_users]

theorem burn_users (cfg : Config) (delOk : String → String → Bool)
    (uid gid cid : String) (db : DB) :
    (burnAfterReading cfg delOk uid gid cid db).1.users =
      db.users.filter (fun r => !(userMatches uid gid r)) := by
  unfold burnAfterReading
  rw [batchRecall_users]


theorem activate_cases (cfg : Config) (s : Sess) (o : ActOracles) (now : ℤ)
    (db : DB) :
    ((activate cfg s o now db).1 = db ∧
      (activate cfg s o now db).2.1 ≠ ActivateResult.activated) ∨
    ((activate cfg s o now db).2.1 = ActivateResult.activated ∧
      ∃ g, s.guildId = some g ∧
        db.users.filter (fun r => r.userId == s.userId) = [] ∧
        (db.users.filter (fun r => r.guildId == g)).length < cfg.maxUsers ∧
        (activate cfg s o now db).1.users =
          db.users ++ [⟨db.nextUserId, s.userId, g, s.channelId, now,
            now + cfg.maxDuration * 1000⟩]) := by
  cases hg : s.guildId with
  | none =>
    left
    unfold activate
    rw [hg]
    exact ⟨rfl, by simp⟩
  | some g =>
    unfold activate
    rw [hg]
    dsimp only
    cases hb : o.botIsAdmin with
    | false =>
      left
      exact ⟨rfl, by simp⟩
    | true =>
      cases hu : o.userRoleOk with
      | false =>
        left
        exact ⟨rfl, by simp⟩
      | true =>
        cases hh : (db.users.filter (fun r => r.userId == s.userId)).head? with
        | some existing =>
          dsimp only
          cases hge : existing.guildId == g with
          | true =>
            left
            exact ⟨rfl, by simp⟩
          | false =>
            left
            exact ⟨rfl, by simp⟩
        | none =>
          dsimp only
          by_cases hcap : cfg.maxUsers ≤
            (db.users.filter (fun r => r.guildId == g)).length
          · rw [if_pos hcap]
            left
            exact ⟨rfl, by simp⟩
          · rw [if_neg hcap]
            right
            refine ⟨rfl, g, rfl, List.head?_eq_none_iff.mp hh, Nat.not_le.mp hcap, ?_⟩
            cases hn : o.noticeIds.head? with
            | some nid => rfl
            | none => rfl

/-- C1: global session uniqueness — activation preserves the at-most-one-
session-per-user invariant; when the user already holds a session anywhere,
activation rejects with no state change; and when that session lives in a
different group, the rejection carries that other group's reference. -/
theorem activate_global_uniqueness (cfg : Config) (s : Sess) (o : ActOracles)
    (now : ℤ) (db : DB) :
    (GlobalUnique db → GlobalUnique (activate cfg s o now db).1) ∧
    ((∃ r ∈ db.users, r.userId = s.userId) →
      (activate cfg s o now db).2.1 ≠ ActivateResult.activated ∧
      (activate cfg s o now db).1 = db) ∧
    (∀ g r, s.guildId = some g → o.botIsAdmin = true → o.userRoleOk = true →
      r ∈ db.users → r.userId = s.userId → r.guildId ≠ g → GlobalUnique db →
      (activate cfg s o now db).2.1 =
        ActivateResult.rejectedElsewhere (guildInfoStr o.guildName r.guildId)) ∧
    (∀ cfg2 delOk2 uid gid cid, GlobalUnique db →
      GlobalUnique (burnAfterReading cfg2 delOk2 uid gid cid db).1) := by
  refine ⟨?_, ?_, ?_, ?_⟩
  · intro hgu
    rcases activate_cases cfg s o now db with ⟨heq, _⟩ | ⟨_, g, _, hflt, _, husers⟩
    · rw [heq]
      exact hgu
    · intro a ha b hb heq2
      rw [husers] at ha hb
      have hnew : ∀ x ∈ db.users, x.userId ≠ s.userId := by
        intro x hx hxeq
        have := List.filter_eq_nil_iff.mp hflt x hx
        exact this (by simp [hxeq])
      rcases List.mem_append.mp ha with ha1 | ha2
      · rcases List.mem_append.mp hb with hb1 | hb2
        · exact hgu a ha1 b hb1 heq2
        · exfalso
          have hbnew : b.userId = s.userId := by
            have : b = ⟨db.nextUserId, s.userId, g, s.channelId, now,
                now + cfg.maxDuration * 1000⟩ := by simpa using hb2
            rw [this]
          exact hnew a ha1 (heq2.trans hbnew)
      · rcases List.mem_append.mp hb with hb1 | hb2
        · exfalso
          have hanew : a.userId = s.userId := by
            have : a = ⟨db.nextUserId, s.userId, g, s.channelId, now,
                now + cfg.maxDuration * 1000⟩ := by simpa using ha2
            rw [this]
          exact hnew b hb1 (heq2.symm.trans hanew)
        · have ha3 : a = ⟨db.nextUserId, s.userId, g, s.channelId, now,
              now + cfg.maxDuration * 1000⟩ := by simpa using ha2
          have hb3 : b = ⟨db.nextUserId, s.userId, g, s.channelId, now,
              now + cfg.maxDuration * 1000⟩ := by simpa using hb2
          rw [ha3, hb3]
  · intro ⟨r, hr, hruid⟩
    rcases activate_cases cfg s o now db with ⟨heq, hne⟩ | ⟨_, g, _, hflt, _, _⟩
    · exact ⟨hne, heq⟩
    · exfalso
      have := List.filter_eq_nil_iff.mp hflt r hr
      exact this (by simp [hruid])
  · intro g r hg hb hu hr hruid hrg hgu
    unfold activate
    rw [hg, hb, hu]
    dsimp only
    cases hh : (db.users.filter (fun r => r.userId == s.userId)).head? with
    | none =>
      exfalso
      have hmem : r ∈ db.users.filter (fun x => x.userId == s.userId) :=
        List.mem_filter.mpr ⟨hr, by simp [hruid]⟩
      rw [List.head?_eq_none_iff.mp hh] at hmem
      exact absurd hmem (List.not_mem_nil r)
    | some existing =>
      have hmem : existing ∈ db.users.filter (fun x => x.userId == s.userId) :=
        List.mem_of_mem_head? hh
      obtain ⟨hmem1, hmem2⟩ := List.mem_filter.mp hmem
      have hexu : existing.userId = s.userId := by simpa using hmem2
      have hexr : existing = r := hgu existing hmem1 r hr (hexu.trans hruid.symm)
      have hge : (existing.guildId == g) = false := by
        apply beq_eq_false_iff_ne.mpr
        rw [hexr]
        exact hrg
      simp only [hge, hexr]
      simp
      rw [if_neg hrg]
  · intro cfg2 delOk2 uid gid cid hgu
    intro a ha b hb heq
    rw [burn_users] at ha hb
    exact hgu a (List.mem_filter.mp ha).1 b (List.mem_filter.mp hb).1 heq

/-- Witness for the C1 theorem: u1 already holds a session in g1; activating
from g2 is rejected and the rejection references g1. -/
theorem activate_global_uniqueness_w :
    ((⟨some "g2", "c2", "u1", "m7"⟩ : Sess).guildId = some "g2") ∧
    (∃ r ∈ (⟨[⟨0, "u1", "g1", "c1", 0, 9⟩], [], 1, 0⟩ : DB).users,
      r.userId = "u1") ∧
    (activate wCfg ⟨some "g2", "c2", "u1", "m7"⟩ ⟨true, true, some "Home", []⟩ 5
        ⟨[⟨0, "u1", "g1", "c1", 0, 9⟩], [], 1, 0⟩).2.1 ≠
      ActivateResult.activated ∧
    (activate wCfg ⟨some "g2", "c2", "u1", "m7"⟩ ⟨true, true, some "Home", []⟩ 5
        ⟨[⟨0, "u1", "g1", "c1", 0, 9⟩], [], 1, 0⟩).2.1 =
      ActivateResult.rejectedElsewhere (guildInfoStr (some "Home") "g1") := by
  refine ⟨by decide, by decide, ?_, ?_⟩
  · exact ((activate_global_uniqueness wCfg ⟨some "g2", "c2", "u1", "m7"⟩
      ⟨true, true, some "Home", []⟩ 5 ⟨[⟨0, "u1", "g1", "c1", 0, 9⟩], [], 1, 0⟩).2.1
      ⟨⟨0, "u1", "g1", "c1", 0, 9⟩, by decide, by decide⟩).1
  · exact (activate_global_uniqueness wCfg ⟨some "g2", "c2", "u1", "m7"⟩
      ⟨true, true, some "Home", []⟩ 5 ⟨[⟨0, "u1", "g1", "c1", 0, 9⟩], [], 1, 0⟩).2.2.1
      "g2" ⟨0, "u1", "g1", "c1", 0, 9⟩ rfl rfl rfl (by decide) rfl (by decide)
      (by decide)

/-- C6: group capacity — activation rejects with no state change whenever the
target group's session count has reached `maxUsers`, and the per-group count
never exceeds `maxUsers` across an activation. -/
theorem activate_capacity (cfg : Config) (s : Sess) (o : ActOracles) (now : ℤ)
    (db : DB) :
    (∀ g, s.guildId = some g →
      cfg.maxUsers ≤ (db.users.filter (fun r => r.guildId == g)).length →
      (activate cfg s o now db).2.1 ≠ ActivateResult.activated ∧
      (activate cfg s o now db).1 = db) ∧
    (∀ g, (db.users.filter (fun r => r.guildId == g)).length ≤ cfg.maxUsers →
      ((activate cfg s o now db).1.users.filter (fun r => r.guildId == g)).length ≤
        cfg.maxUsers) ∧
    (∀ cfg2 delOk2 uid gid cid g,
      (db.users.filter (fun r => r.guildId == g)).length ≤ cfg.maxUsers →
      (((burnAfterReading cfg2 delOk2 uid gid cid db).1.users.filter
        (fun r => r.guildId == g)).length ≤ cfg.maxUsers)) := by
  refine ⟨?_, ?_, ?_⟩
  · intro g hg hcap
    rcases activate_cases cfg s o now db with ⟨heq, hne⟩ | ⟨_, g2, hg2, _, hlt, _⟩
    · exact ⟨hne, heq⟩
    · exfalso
      rw [hg] at hg2
      injection hg2 with hgg
      rw [← hgg] at hlt
      exact absurd hcap (Nat.not_le.mpr hlt)
  · intro g hle
    rcases activate_cases cfg s o now db with ⟨heq, _⟩ | ⟨_, g2, _, _, hlt, husers⟩
    · rw [heq]
      exact hle
    · rw [husers, List.filter_append]
      cases hmatch : ((⟨db.nextUserId, s.userId, g2, s.channelId, now,
          now + cfg.maxDuration * 1000⟩ : UserRec).guildId == g) with
      | false =>
        have : ([⟨db.nextUserId, s.userId, g2, s.channelId, now,
            now + cfg.maxDuration * 1000⟩] : List UserRec).filter
            (fun r => r.guildId == g) = [] := by
          simp [hmatch]
        rw [this]
        simpa using hle
      | true =>
        have hgg : g2 = g := by simpa using hmatch
        have : ([⟨db.nextUserId, s.userId, g2, s.channelId, now,
            now + cfg.maxDuration * 1000⟩] : List UserRec).filter
            (fun r => r.guildId == g) =
            [⟨db.nextUserId, s.userId, g2, s.channelId, now,
              now + cfg.maxDuration * 1000⟩] := by
          simp [hmatch]
        rw [this, List.length_append]
        rw [hgg] at hlt
        simpa using hlt
  · intro cfg2 delOk2 uid gid cid g hle
    rw [burn_users]
    refine le_trans ?_ hle
    apply List.Sublist.length_le
    exact List.Sublist.filter _ (List.filter_sublist db.users)

/-- Witness for the C6 theorem: maxUsers = 1 and one session already active
in g1; a second user's activation in g1 is rejected with no state change,
and the group count stays at most 1. -/
theorem activate_capacity_w :
    (Config.mk 5 3600 1 1).maxUsers ≤
      ((⟨[⟨0, "u1", "g1", "c1", 0, 9⟩], [], 1, 0⟩ : DB).users.filter
        (fun r => r.guildId == "g1")).length ∧
    (activate (Config.mk 5 3600 1 1) ⟨some "g1", "c1", "u2", "m8"⟩
        ⟨true, true, none, []⟩ 5 ⟨[⟨0, "u1", "g1", "c1", 0, 9⟩], [], 1, 0⟩).2.1 ≠
      ActivateResult.activated ∧
    (activate (Config.mk 5 3600 1 1) ⟨some "g1", "c1", "u2", "m8"⟩
        ⟨true, true, none, []⟩ 5 ⟨[⟨0, "u1", "g1", "c1", 0, 9⟩], [], 1, 0⟩).1 =
      ⟨[⟨0, "u1", "g1", "c1", 0, 9⟩], [], 1, 0⟩ ∧
    ((activate (Config.mk 5 3600 1 1) ⟨some "g1", "c1", "u2", "m8"⟩
        ⟨true, true, none, []⟩ 5
        ⟨[⟨0, "u1", "g1", "c1", 0, 9⟩], [], 1, 0⟩).1.users.filter
      (fun r => r.guildId == "g1")).length ≤ (Config.mk 5 3600 1 1).maxUsers := by
  refine ⟨by decide, ?_, ?_, ?_⟩
  · exact ((activate_capacity (Config.mk 5 3600 1 1) ⟨some "g1", "c1", "u2", "m8"⟩
      ⟨true, true, none, []⟩ 5 ⟨[⟨0, "u1", "g1", "c1", 0, 9⟩], [], 1, 0⟩).1
      "g1" rfl (by decide)).1
  · exact ((activate_capacity (Config.mk 5 3600 1 1) ⟨some "g1", "c1", "u2", "m8"⟩
      ⟨true, true, none, []⟩ 5 ⟨[⟨0, "u1", "g1", "c1", 0, 9⟩], [], 1, 0⟩).1
      "g1" rfl (by decide)).2
  · exact (activate_capacity (Config.mk 5 3600 1 1) ⟨some "g1", "c1", "u2", "m8"⟩
      ⟨true, true, none, []⟩ 5 ⟨[⟨0, "u1", "g1", "c1", 0, 9⟩], [], 1, 0⟩).2.1
      "g1" (by decide)

/-! ### Recovery -/

theorem batchRecall_no_arm (cfg : Config) (delOk : String → String → Bool)
    (uid gid cid : String) (db : DB) :
    ∀ e ∈ (batchRecallMessages cfg delOk uid gid cid db).2, e.isArm = false := by
  unfold batchRecallMessages
  by_cases hemp : (db.messages.filter (msgMatches uid gid)).isEmpty = true
  · rw [if_pos hemp]
    intro e he
    exact absurd he (List.not_mem_nil e)
  · rw [if_neg hemp]
    dsimp only
    intro e he
    rcases List.mem_cons.mp he with rfl | he2
    · rfl
    rcases List.mem_append.mp he2 with h3 | h4
    · exact recallLoop_no_arm cfg delOk _ _ _ e h3
    · have h5 : e = Event.send cid .completion := by simpa using h4
      rw [h5]
      rfl

theorem burn_no_arm (cfg : Config) (delOk : String → String → Bool)
    (uid gid cid : String) (db : DB) :
    ∀ e ∈ (burnAfterReading cfg delOk uid gid cid db).2, e.isArm = false := by
  unfold burnAfterReading
  exact batchRecall_no_arm cfg delOk uid gid cid _

theorem recoveryStep_cons (cfg : Config) (delOk : String → String → Bool)
    (b : String) (bs : List String) (now : ℤ) (u : UserRec) (db : DB) :
    recoveryStep cfg delOk (b :: bs) now u db =
      if now < u.expiresAt then
        (db, scheduleExpiration u.userId u.guildId u.channelId u.expiresAt now)
      else burnAfterReading cfg delOk u.userId u.guildId u.channelId db := rfl

theorem scheduleExpiration_pos (uid gid cid : String) (expiresAt now : ℤ)
    (h : 0 < expiresAt - now) :
    scheduleExpiration uid gid cid expiresAt now =
      [Event.armTimer uid gid cid (expiresAt - now)] := by
  have h2 : ¬ (expiresAt - now ≤ 0) := not_le.mpr h
  unfold scheduleExpiration
  simp [h2]

theorem processUsers_no_expired (cfg : Config) (delOk : String → String → Bool)
    (bots : List String) (now : ℤ) (hb : bots ≠ [])
    (snapshot : List UserRec) (db : DB)
    (h : ∀ u ∈ db.users, u ∈ snapshot ∨ now < u.expiresAt) :
    ∀ u ∈ (processUsers cfg delOk bots now snapshot db).1.users,
      now < u.expiresAt := by
  induction snapshot generalizing db with
  | nil =>
    intro u hu
    rcases h u hu with h1 | h2
    · exact absurd h1 (List.not_mem_nil u)
    · exact h2
  | cons s rest ih =>
    intro u hu
    refine ih ((recoveryStep cfg delOk bots now s db).1) ?_ u hu
    intro v hv
    cases bots with
    | nil => exact absurd rfl hb
    | cons b bs =>
      rw [recoveryStep_cons] at hv
      by_cases hfut : now < s.expiresAt
      · rw [if_pos hfut] at hv
        rcases h v hv with h1 | h2
        · rcases List.mem_cons.mp h1 with rfl | h3
          · right
            exact hfut
          · left
            exact h3
        · right
          exact h2
      · rw [if_neg hfut] at hv
        rw [burn_users] at hv
        obtain ⟨hv1, hv2⟩ := List.mem_filter.mp hv
        rcases h v hv1 with h1 | h2
        · rcases List.mem_cons.mp h1 with rfl | h3
          · exfalso
            simp [userMatches] at hv2
          · left
            exact h3
        · right
          exact h2

/-- C4: recovery equivalence — at startup, provided a platform connection
exists, a session whose expiry lies strictly in the future re-arms the timer
with exactly the remaining delay, while an already-expired session burns
immediately (its step is the burn itself, it removes the session row and
arms no timer); after recovery no stored session has a missed expiry. -/
theorem recovery_equivalence (cfg : Config) (delOk : String → String → Bool)
    (bots : List String) (now : ℤ) (u : UserRec) (db : DB) (hb : bots ≠ []) :
    (now < u.expiresAt →
      recoveryStep cfg delOk bots now u db =
        (db, [Event.armTimer u.userId u.guildId u.channelId (u.expiresAt - now)])) ∧
    (u.expiresAt ≤ now →
      recoveryStep cfg delOk bots now u db =
        burnAfterReading cfg delOk u.userId u.guildId u.channelId db ∧
      (∀ r ∈ (recoveryStep cfg delOk bots now u db).1.users,
        ¬(r.userId = u.userId ∧ r.guildId = u.guildId)) ∧
      (∀ e ∈ (recoveryStep cfg delOk bots now u db).2, e.isArm = false)) ∧
    (∀ r ∈ (recovery cfg delOk bots now db).1.users, now < r.expiresAt) := by
  refine ⟨?_, ?_, ?_⟩
  · intro hfut
    cases bots with
    | nil => exact absurd rfl hb
    | cons b bs =>
      rw [recoveryStep_cons, if_pos hfut,
        scheduleExpiration_pos u.userId u.guildId u.channelId u.expiresAt now
          (by omega)]
  · intro hexp
    cases bots with
    | nil => exact absurd rfl hb
    | cons b bs =>
      have hstep : recoveryStep cfg delOk (b :: bs) now u db =
          burnAfterReading cfg delOk u.userId u.guildId u.channelId db := by
        rw [recoveryStep_cons, if_neg (by omega)]
      refine ⟨hstep, ?_, ?_⟩
      · rw [hstep, burn_users]
        intro r hr hmatch
        obtain ⟨_, hr2⟩ := List.mem_filter.mp hr
        simp [userMatches, hmatch.1, hmatch.2] at hr2
      · rw [hstep]
        exact burn_no_arm cfg delOk u.userId u.guildId u.channelId db
  · intro r hr
    exact processUsers_no_expired cfg delOk bots now hb db.users db
      (fun v hv => Or.inl hv) r hr

/-- Witness for the C4 theorem: one future session (expiry 100000 ms ahead)
is re-armed with exactly that remaining delay; one expired session (expiry
10000 ms in the past) is burned immediately and leaves no session row. -/
theorem recovery_equivalence_w :
    (["bot1"] : List String) ≠ [] ∧
    recoveryStep wCfg (fun _ _ => true) ["bot1"] 0 ⟨0, "u", "g", "c", 0, 100000⟩
        ⟨[⟨0, "u", "g", "c", 0, 100000⟩], [], 1, 0⟩ =
      (⟨[⟨0, "u", "g", "c", 0, 100000⟩], [], 1, 0⟩,
        [Event.armTimer "u" "g" "c" 100000]) ∧
    recoveryStep wCfg (fun _ _ => true) ["bot1"] 0 ⟨0, "uE", "gE", "cE", -20000, -10000⟩
        ⟨[⟨0, "uE", "gE", "cE", -20000, -10000⟩], [], 1, 0⟩ =
      burnAfterReading wCfg (fun _ _ => true) "uE" "gE" "cE"
        ⟨[⟨0, "uE", "gE", "cE", -20000, -10000⟩], [], 1, 0⟩ ∧
    (∀ r ∈ (recovery wCfg (fun _ _ => true) ["bot1"] 0
        ⟨[⟨0, "uE", "gE", "cE", -20000, -10000⟩], [], 1, 0⟩).1.users,
      (0 : ℤ) < r.expiresAt) := by
  refine ⟨by decide, ?_, ?_, ?_⟩
  · exact (recovery_equivalence wCfg (fun _ _ => true) ["bot1"] 0
      ⟨0, "u", "g", "c", 0, 100000⟩ ⟨[⟨0, "u", "g", "c", 0, 100000⟩], [], 1, 0⟩
      (by decide)).1 (by decide)
  · exact ((recovery_equivalence wCfg (fun _ _ => true) ["bot1"] 0
      ⟨0, "uE", "gE", "cE", -20000, -10000⟩
      ⟨[⟨0, "uE", "gE", "cE", -20000, -10000⟩], [], 1, 0⟩ (by decide)).2.1
      (by decide)).1
  · exact (recovery_equivalence wCfg (fun _ _ => true) ["bot1"] 0
      ⟨0, "uE", "gE", "cE", -20000, -10000⟩
      ⟨[⟨0, "uE", "gE", "cE", -20000, -10000⟩], [], 1, 0⟩ (by decide)).2.2

end BurnAfterReading
